import Mathlib

set_option autoImplicit false

namespace PlayScore

/-!
Shallow embedding of `src/playscore_to_musicxml.py` (and of the part of the
batch loop in `main` that aggregates per-file return codes).

Byte strings are modelled as `String`: the source decodes entry bytes with
utf-8 and errors=replace before any inspection, and that decoding is total,
so nothing is lost by working with decoded text directly.
-/

abbrev Bytes := String

/-- Left curly brace character, written via its code point. -/
def lcurly : Char := Char.ofNat 123

/-- Right curly brace character, written via its code point. -/
def rcurly : Char := Char.ofNat 125

def isXmlSpace (c : Char) : Bool :=
  c = ' ' || c = '\n' || c = '\t' || c = '\r'

def skipWs : List Char → List Char
  | [] => []
  | c :: r => if isXmlSpace c then skipWs r else c :: r

def isNameChar (c : Char) : Bool :=
  c.isAlpha || c.isDigit || c = '-' || c = '_' || c = '.' || c = ':'

def takeName : List Char → List Char × List Char
  | [] => ([], [])
  | c :: r =>
    if isNameChar c then
      let p := takeName r
      (c :: p.1, p.2)
    else ([], c :: r)

/-- Consume the remainder of a processing instruction or declaration,
through the closing question-mark and greater-than pair. -/
def skipDecl : List Char → Option (List Char)
  | [] => none
  | '?' :: '>' :: r => some r
  | _ :: r => skipDecl r

/-- Consume an attribute value up to the closing double quote. -/
def takeQuoted : List Char → Option (List Char × List Char)
  | [] => none
  | c :: r =>
    if c = '"' then some ([], r)
    else
      match takeQuoted r with
      | some (v, rest) => some (c :: v, rest)
      | none => none

/-- Parse the attribute list of a start tag, returning the attributes, a
flag telling whether the tag was self-closing, and the input after the
closing greater-than sign.  Fuel-indexed; any call with fuel at least the
input length behaves like the unbounded parser. -/
def parseAttrs : Nat → List Char → Option (List (String × String) × Bool × List Char)
  | 0, _ => none
  | fuel + 1, cs =>
    match skipWs cs with
    | [] => none
    | c :: cs1 =>
      if c = '>' then some ([], false, cs1)
      else if c = '/' then
        match cs1 with
        | '>' :: rest => some ([], true, rest)
        | _ => none
      else
        match takeName (c :: cs1) with
        | (n, cs2) =>
          if n.isEmpty then none
          else
            match skipWs cs2 with
            | '=' :: cs3 =>
              match skipWs cs3 with
              | '"' :: cs4 =>
                match takeQuoted cs4 with
                | some (v, cs5) =>
                  match parseAttrs fuel cs5 with
                  | some (attrs, sc, rest) =>
                    some ((String.mk n, String.mk v) :: attrs, sc, rest)
                  | none => none
                | none => none
              | _ => none
            | _ => none

def trimRightWs (cs : List Char) : List Char :=
  (cs.reverse.dropWhile isXmlSpace).reverse

/-- Whether the document body after the root start tag is terminated by the
matching end tag (trailing whitespace allowed). -/
def closedBy (n : List Char) (rest : List Char) : Bool :=
  List.isSuffixOf ('<' :: '/' :: (n ++ ['>'])) (trimRightWs rest)

def lookupAttr (k : String) : List (String × String) → Option String
  | [] => none
  | av :: r => if av.fst = k then some av.snd else lookupAttr k r

/-- Modelled from the spec: the source calls the external XML parser
`xml.etree.ElementTree.fromstring` (Python standard library, not part of
this repository) and uses only the tag of the returned root element.  This
definition models that call.  It accepts an optional leading XML
declaration, parses the root element start tag with its attributes, and
requires the document to be closed by the matching end tag (or to be a
self-closing root element).  The returned tag follows the ElementTree
convention: when a default xmlns attribute is present the tag is the
namespace URI wrapped in curly braces, followed by the local name.
Malformed input yields `none`, modelling the exception the library raises
there (which the caller catches). -/
def xmlRootTag (s : String) : Option String :=
  let cs0 := skipWs s.toList
  let afterDecl : Option (List Char) :=
    match cs0 with
    | '<' :: '?' :: r =>
      match skipDecl r with
      | some r1 => some (skipWs r1)
      | none => none
    | _ => some cs0
  match afterDecl with
  | none => none
  | some cs2 =>
    match cs2 with
    | '<' :: cs3 =>
      match takeName cs3 with
      | (n, cs4) =>
        if n.isEmpty then none
        else
          match parseAttrs (cs4.length + 1) cs4 with
          | none => none
          | some (attrs, selfClosing, rest) =>
            let ok : Bool := if selfClosing then rest.all isXmlSpace else closedBy n rest
            if ok then
              match lookupAttr "xmlns" attrs with
              | some ns => some (String.mk (lcurly :: (ns.toList ++ rcurly :: n)))
              | none => some (String.mk n)
            else none
    | _ => none

/-- Python str.lower, modelled character-wise. -/
def strLower (s : String) : String := String.mk (s.toList.map Char.toLower)

/-- Python str.endswith, modelled on character lists. -/
def strEndsWith (s suf : String) : Bool := List.isSuffixOf suf.toList s.toList

/-- Source lines 49-51: strip a namespace wrapped in curly braces from the
front of an ElementTree tag.  Python splits at the first right curly brace
with maxsplit one and keeps the second piece. -/
def dropThroughRCurly : List Char → List Char
  | [] => []
  | c :: r => if c = rcurly then r else dropThroughRCurly r

def stripNsTag (tag : String) : String :=
  if tag.toList.contains rcurly then String.mk (dropThroughRCurly tag.toList) else tag

/-- The tuple of accepted root tags at source line 52. -/
def musicxmlRoots : List String := ["score-partwise", "score-timewise", "score"]

/-- Source lines 46-54 (`is_musicxml_bytes`): parse the bytes as XML; on
any parse failure return false; otherwise strip a leading curly-brace
namespace from the root tag, lowercase it, and test membership in the
accepted root tags. -/
def is_musicxml_bytes (b : Bytes) : Bool :=
  match xmlRootTag b with
  | none => false
  | some tag => musicxmlRoots.contains (strLower (stripNsTag tag))

/-- An opened ZIP archive: the ordered list of entries, each a name paired
with the entry bytes.  `namelist` and `zread` model the two ZipFile
operations the source uses. -/
abbrev Archive := List (String × Bytes)

def namelist (a : Archive) : List String := a.map Prod.fst

/-- Python ZipFile.read resolves a name through the NameToInfo dictionary,
in which a later entry with the same name overwrites an earlier one, so
reading by name returns the bytes of the last entry bearing that name. -/
def zread (a : Archive) (n : String) : Option Bytes :=
  (a.reverse.find? (fun e => e.fst == n)).map Prod.snd

/-- Payload classification outcome of the archive inspection (spec section
3, ScoreArchive). -/
inductive Classification where
  | directMusicXML (b : Bytes)
  | midiPayload (b : Bytes)
  | unrecognized
  deriving DecidableEq

/-- The fallback scan shared by source lines 131-145, 168-172 and 224-231:
walk the name list in archive order; for each name whose lowercased form
ends in .xml, read it and, if it passes the MusicXML root test, classify
with those bytes. -/
def classifyScan (a : Archive) : List String → Classification
  | [] => .unrecognized
  | n :: rest =>
    if strEndsWith (strLower n) ".xml" then
      match zread a n with
      | some b => if is_musicxml_bytes b then .directMusicXML b else classifyScan a rest
      | none => classifyScan a rest
    else classifyScan a rest

/-- Steps two onward of the shared detection flow: an entry literally named
doc.mid wins next; otherwise the fallback scan runs over the full name
list (the source loops over all names, doc.xml and doc.mid included). -/
def classifyPost (a : Archive) : Classification :=
  match zread a "doc.mid" with
  | some mb => .midiPayload mb
  | none => classifyScan a (namelist a)

/-- The archive inspection shared by `process_single_file` (lines 193-237),
`parse_playscore_to_score` (lines 99-154) and
`extract_musicxml_bytes_from_playscore` (lines 157-175): an entry literally
named doc.xml is probed first and wins when its bytes pass the MusicXML
root test; the source guards the read with a membership test on the name
list, which is equivalent to `zread` returning a value. -/
def classify (a : Archive) : Classification :=
  match zread a "doc.xml" with
  | some b => if is_musicxml_bytes b then .directMusicXML b else classifyPost a
  | none => classifyPost a

/-- Claim wording, step three: a remaining entry (one not literally named
doc.xml or doc.mid) whose name ends in .xml case-insensitively and whose
bytes pass the MusicXML root test. -/
def specXmlHit (a : Archive) (n : String) : Bool :=
  (!(n == "doc.xml")) && (!(n == "doc.mid")) && strEndsWith (strLower n) ".xml" &&
    (match zread a n with
     | some b => is_musicxml_bytes b
     | none => false)

/-- Claim wording, step three continued: the first remaining entry in
archive order matching `specXmlHit` classifies with its bytes. -/
def specScanResult (a : Archive) (ns : List String) : Classification :=
  match ns.find? (specXmlHit a) with
  | some n =>
    match zread a n with
    | some b => .directMusicXML b
    | none => .unrecognized
  | none => .unrecognized

/-- The classification priority exactly as the claim states it, written
from the spec text (detection order, first match wins): doc.xml passing
the root test, else doc.mid raw, else the first remaining xml entry
passing the root test, else unrecognized. -/
def classifySpec (a : Archive) : Classification :=
  match (zread a "doc.xml").bind (fun b => if is_musicxml_bytes b then some b else none) with
  | some b => .directMusicXML b
  | none =>
    match zread a "doc.mid" with
    | some mb => .midiPayload mb
    | none => specScanResult a (namelist a)

/-- An in-memory music21 object returned by the external converter.parse.
A `scoreOf` value has a parts attribute holding the declared parts in
order (parts are abstract tokens); a `plain` value is a stream without a
parts attribute, so the hasattr test at source line 276 fails on it. -/
inductive M21Obj where
  | scoreOf (parts : List Nat)
  | plain (id : Nat)
  deriving DecidableEq

/-- An element appended to the combined score at source lines 275-282:
either one declared part, or a whole score object appended as a single
implicit part. -/
inductive Elem where
  | part (p : Nat)
  | whole (m : M21Obj)
  deriving DecidableEq

/-- The filesystem ledger of temporary files: the names (as counters) of
the scratch files currently existing, and the next fresh name. -/
structure FS where
  temps : List Nat
  next : Nat
  deriving DecidableEq

def FS.wf (s : FS) : Prop := ∀ t ∈ s.temps, t < s.next

instance (s : FS) : Decidable s.wf := by
  unfold FS.wf; infer_instance

/-- tempfile.NamedTemporaryFile with delete=False: a fresh scratch file is
created and recorded in the ledger. -/
def mkTemp (s : FS) : Nat × FS :=
  (s.next, ⟨s.temps ++ [s.next], s.next + 1⟩)

/-- os.unlink: the scratch file is removed from the ledger. -/
def unlink (t : Nat) (s : FS) : FS := ⟨s.temps.erase t, s.next⟩

def fs0 : FS := ⟨[], 0⟩

/-- The content of an input path as `process_single_file` or
`parse_playscore_to_score` sees it once the path exists: either not a
valid ZIP container (zipfile raises BadZipFile), or an opened archive. -/
inductive PInput where
  | notZip
  | zip (a : Archive)

/-- Source lines 62-85 (`convert_mid_to_musicxml`): if music21 cannot be
imported, report failure at once (no scratch file is created); otherwise
write the MIDI bytes to a scratch file, run the external parse-and-write
step on it, and unlink the scratch file in a finally block on both the
success and the exception path.  `conv` models the external
converter.parse plus score.write pair: `some ob` means the output file was
written with bytes `ob`, `none` means the step raised (the source catches
that and returns False).  The returned triple is the success flag, the
bytes written to the output path, and the filesystem ledger. -/
def convert_mid_to_musicxml (m21 : Bool) (conv : Bytes → Option Bytes) (mb : Bytes)
    (s : FS) : Bool × Option Bytes × FS :=
  if !m21 then (false, none, s)
  else
    let ts := mkTemp s
    match conv mb with
    | some ob => (true, some ob, unlink ts.1 ts.2)
    | none => (false, none, unlink ts.1 ts.2)

/-- Environment for `process_single_file`: whether the input path names an
existing file, its content when it does, whether the output path exists,
the overwrite flag, whether music21 imports, and the external MIDI
conversion step. -/
structure SEnv where
  fileExists : Bool
  input : PInput
  outExists : Bool
  overwrite : Bool
  music21 : Bool
  midiConv : Bytes → Option Bytes

/-- Source lines 178-242 (`process_single_file`): missing input is code 2;
an existing output without the overwrite flag is code 0 with nothing
written; a BadZipFile input is code 2; then the shared detection flow runs:
a direct MusicXML payload is written verbatim (code 0), a MIDI payload
goes through `convert_mid_to_musicxml` (code 0 on success, 3 on failure),
and an unrecognized archive is code 4.  The result is the return code,
the bytes written to the output path, and the filesystem ledger. -/
def process_single_file (e : SEnv) (s : FS) : Nat × Option Bytes × FS :=
  if !e.fileExists then (2, none, s)
  else if e.outExists && !e.overwrite then (0, none, s)
  else
    match e.input with
    | .notZip => (2, none, s)
    | .zip a =>
      match classify a with
      | .directMusicXML b => (0, some b, s)
      | .midiPayload mb =>
        let r := convert_mid_to_musicxml e.music21 e.midiConv mb s
        if r.1 then (0, r.2.1, r.2.2) else (3, r.2.1, r.2.2)
      | .unrecognized => (4, none, s)

/-- Environment for the merge path: whether music21 imports, the external
converter.parse on MusicXML bytes and on MIDI bytes (an `Except.error`
models the exception the library raises on unparsable content), the
external MusicXML serializer for the combined score (`none` models a raised
exception), and the output-path state. -/
structure MEnv where
  music21 : Bool
  xmlParse : Bytes → Except Unit M21Obj
  midParse : Bytes → Except Unit M21Obj
  serialize : List Elem → Option Bytes
  outExists : Bool
  overwrite : Bool

/-- Source lines 88-154 (`parse_playscore_to_score`): without music21 the
result is None; a BadZipFile input is caught and yields None; an archive
with no usable payload yields None.  When the detection flow selects a
payload, its bytes go to a scratch file which the external converter.parse
reads; the scratch file is unlinked in a finally block whether the parse
returns or raises.  Only BadZipFile is caught by the surrounding handler,
so an exception from converter.parse propagates to the caller, modelled by
`Except.error`. -/
def parse_playscore_to_score (m : MEnv) (f : PInput) (s : FS) :
    Except Unit (Option M21Obj) × FS :=
  if !m.music21 then (.ok none, s)
  else
    match f with
    | .notZip => (.ok none, s)
    | .zip a =>
      match classify a with
      | .directMusicXML b =>
        let ts := mkTemp s
        (match m.xmlParse b with
         | .ok sc => .ok (some sc)
         | .error err => .error err, unlink ts.1 ts.2)
      | .midiPayload mb =>
        let ts := mkTemp s
        (match m.midParse mb with
         | .ok sc => .ok (some sc)
         | .error err => .error err, unlink ts.1 ts.2)
      | .unrecognized => (.ok none, s)

/-- Source lines 260-266: parse each input in order, keeping the non-None
results in order; an exception from `parse_playscore_to_score` aborts the
loop and propagates. -/
def resolveAll (m : MEnv) : List PInput → FS → Except Unit (List M21Obj) × FS
  | [], s => (.ok [], s)
  | f :: rest, s =>
    let pr := parse_playscore_to_score m f s
    match pr.1 with
    | .error err => (.error err, pr.2)
    | .ok r =>
      let rr := resolveAll m rest pr.2
      match rr.1 with
      | .error err => (.error err, rr.2)
      | .ok rs => (.ok (r.toList ++ rs), rr.2)

/-- Source lines 273-282: the accumulation loop over the parsed scores.
A score whose parts attribute exists and is non-empty contributes each of
its parts in order; any other object is appended whole as one implicit
part.  The accumulator carries the combined element list and the part
counter. -/
def combineAux : List Elem → Nat → List M21Obj → List Elem × Nat
  | acc, cnt, [] => (acc, cnt)
  | acc, cnt, m :: rest =>
    match m with
    | .scoreOf ps =>
      if ps.length > 0 then combineAux (acc ++ ps.map Elem.part) (cnt + ps.length) rest
      else combineAux (acc ++ [Elem.whole m]) (cnt + 1) rest
    | .plain _ => combineAux (acc ++ [Elem.whole m]) (cnt + 1) rest

def combineParts (scores : List M21Obj) : List Elem × Nat :=
  combineAux [] 0 scores

/-- The per-source expansion the accumulation loop performs. -/
def expandOne (m : M21Obj) : List Elem :=
  match m with
  | .scoreOf ps => if ps.length > 0 then ps.map Elem.part else [Elem.whole m]
  | .plain _ => [Elem.whole m]

/-- The per-source part count the accumulation loop adds. -/
def countOne (m : M21Obj) : Nat :=
  match m with
  | .scoreOf ps => if ps.length > 0 then ps.length else 1
  | .plain _ => 1

/-- Source lines 245-293 (`merge_files`): an existing output without the
overwrite flag returns 0 at once, before music21 is imported and before
any input is opened; a missing music21 is code 3; zero parsed scores is
code 4 with nothing written; otherwise the combined score is built and
serialized, code 0 writing the serializer output, or code 5 with nothing
written when serialization raises.  An exception from parsing propagates.
The result is the return code (or the propagated exception), the bytes
written to the output path, and the filesystem ledger. -/
def merge_files (m : MEnv) (inputs : List PInput) (s : FS) :
    Except Unit Nat × Option Bytes × FS :=
  if m.outExists && !m.overwrite then (.ok 0, none, s)
  else if !m.music21 then (.ok 3, none, s)
  else
    let rr := resolveAll m inputs s
    match rr.1 with
    | .error err => (.error err, none, rr.2)
    | .ok scores =>
      if scores.isEmpty then (.ok 4, none, rr.2)
      else
        match m.serialize (combineParts scores).1 with
        | some b => (.ok 0, some b, rr.2)
        | none => (.ok 5, none, rr.2)

/-- Source lines 385-398: the non-merge loop of `main`.  The running exit
code starts at 0 and is replaced by the return code of each input whose
conversion returns non-zero. -/
def mainBatchAux : Nat → List SEnv → FS → Nat × FS
  | acc, [], s => (acc, s)
  | acc, e :: rest, s =>
    let r := process_single_file e s
    mainBatchAux (if r.1 ≠ 0 then r.1 else acc) rest r.2.2

def mainBatch (envs : List SEnv) (s : FS) : Nat × FS :=
  mainBatchAux 0 envs s

/-- The per-input return codes of a batch, in input order. -/
def batchCodes : List SEnv → FS → List Nat
  | [], _ => []
  | e :: rest, s =>
    let r := process_single_file e s
    r.1 :: batchCodes rest r.2.2

/-! ### Concrete instances used by witnesses and counterexamples -/

/-- A MusicXML document accepted by the root-element test. -/
def goodXml : Bytes := "<score-partwise></score-partwise>"

def archDocXml : Archive := [("doc.xml", goodXml)]

def archDocMid : Archive := [("doc.mid", "MThd0")]

/-- Input exists, is a ZIP holding a passing doc.xml, output absent. -/
def eDocXml : SEnv := ⟨true, .zip archDocXml, false, false, false, fun _ => none⟩

/-- Input path missing, output already present, overwrite off. -/
def eMissingOutPresent : SEnv := ⟨false, .notZip, true, false, false, fun _ => none⟩

/-- Input exists, output already present, overwrite off. -/
def eExistingOutPresent : SEnv := ⟨true, .notZip, true, false, false, fun _ => none⟩

/-- Input path missing. -/
def eMissing : SEnv := ⟨false, .notZip, false, false, true, fun _ => none⟩

/-- Input exists but is not a valid ZIP container. -/
def eBadZip : SEnv := ⟨true, .notZip, false, false, true, fun _ => none⟩

/-- MIDI payload with music21 unavailable. -/
def eMidiNoLib : SEnv := ⟨true, .zip archDocMid, false, false, false, fun _ => none⟩

/-- MIDI payload with music21 available but the conversion step raising. -/
def eMidiFail : SEnv := ⟨true, .zip archDocMid, false, false, true, fun _ => none⟩

/-- Valid ZIP with no usable payload (empty archive), yielding code 4. -/
def eUnrec : SEnv := ⟨true, .zip [], false, false, true, fun _ => none⟩

/-- Merge environment: music21 present, the external parser accepts
`goodXml` as a two-part score and raises on everything else (including
all MIDI bytes), serialization succeeds. -/
def mParseRaises : MEnv :=
  ⟨true,
   fun b => if b == goodXml then .ok (.scoreOf [10, 11]) else .error (),
   fun _ => .error (),
   fun _ => some "OUT",
   false, false⟩

/-- Merge input A: archive with a passing doc.xml. -/
def inA : PInput := .zip archDocXml

/-- Merge input B: archive with a doc.mid whose bytes the external parser
rejects by raising. -/
def inB : PInput := .zip [("doc.mid", "MThdJunk")]

/-- Merge environment where every external call fails; music21 present. -/
def mAllFail : MEnv :=
  ⟨true, fun _ => .error (), fun _ => .error (), fun _ => none, false, false⟩

/-- Merge environment with the output already present, overwrite off, and
music21 missing. -/
def mOutPresentNoLib : MEnv :=
  ⟨false, fun _ => .error (), fun _ => .error (), fun _ => none, true, false⟩

/-! ### Theorems -/

theorem specScanResult_cons (a : Archive) (n : String) (rest : List String) :
    specScanResult a (n :: rest) =
      if specXmlHit a n then
        (match zread a n with
         | some b => Classification.directMusicXML b
         | none => Classification.unrecognized)
      else specScanResult a rest := by
  by_cases h : specXmlHit a n = true
  · simp [specScanResult, List.find?, h]
  · simp only [Bool.not_eq_true] at h
    simp [specScanResult, List.find?, h]

theorem classifyScan_eq_spec (a : Archive)
    (hdoc : ∀ b, zread a "doc.xml" = some b → is_musicxml_bytes b = false) :
    ∀ ns : List String, classifyScan a ns = specScanResult a ns := by
  intro ns
  induction ns with
  | nil => rfl
  | cons n rest ih =>
    rw [specScanResult_cons]
    by_cases hsuf : strEndsWith (strLower n) ".xml" = true
    · cases hz : zread a n with
      | none =>
        have hhit : specXmlHit a n = false := by
          simp [specXmlHit, hz]
        simp [classifyScan, hsuf, hz, hhit, ih]
      | some b =>
        cases ht : is_musicxml_bytes b with
        | true =>
          have hnx : (n == "doc.xml") = false := by
            cases hn : n == "doc.xml" with
            | false => rfl
            | true =>
              have : n = "doc.xml" := eq_of_beq hn
              rw [this] at hz
              rw [hdoc b hz] at ht
              cases ht
          have hnm : (n == "doc.mid") = false := by
            cases hm : n == "doc.mid" with
            | false => rfl
            | true =>
              have : n = "doc.mid" := eq_of_beq hm
              rw [this] at hsuf
              exact absurd hsuf (by decide)
          have hhit : specXmlHit a n = true := by
            simp [specXmlHit, hnx, hnm, hsuf, hz, ht]
          simp [classifyScan, hsuf, hz, ht, hhit]
        | false =>
          have hhit : specXmlHit a n = false := by
            simp [specXmlHit, hz, ht]
          simp [classifyScan, hsuf, hz, ht, hhit, ih]
    · have hhit : specXmlHit a n = false := by
        simp only [Bool.not_eq_true] at hsuf
        simp [specXmlHit, hsuf]
      simp only [Bool.not_eq_true] at hsuf
      simp [classifyScan, hsuf, hhit, ih]

theorem classifyPost_eq_specPost (a : Archive)
    (hdoc : ∀ b, zread a "doc.xml" = some b → is_musicxml_bytes b = false) :
    classifyPost a =
      (match zread a "doc.mid" with
       | some mb => Classification.midiPayload mb
       | none => specScanResult a (namelist a)) := by
  unfold classifyPost
  cases zread a "doc.mid" with
  | some mb => rfl
  | none => exact classifyScan_eq_spec a hdoc (namelist a)

/-- C1: for every archive opened by the inspection logic, the payload
classification follows the exact stated priority, first match wins: an
entry literally named doc.xml passing the MusicXML root test is
DirectMusicXML; else an entry literally named doc.mid is MidiPayload with
its raw bytes; else the first remaining xml-suffixed entry (case-
insensitive) passing the root test is DirectMusicXML; else Unrecognized.
`classify` is the detection flow embedded from the source; `classifySpec`
is the priority written from the claim text. -/
theorem classify_follows_spec_priority : ∀ a : Archive, classify a = classifySpec a := by
  intro a
  unfold classify classifySpec
  cases hdx : zread a "doc.xml" with
  | none =>
    have hdoc : ∀ b, zread a "doc.xml" = some b → is_musicxml_bytes b = false := by
      intro b hb; rw [hdx] at hb; cases hb
    simpa using classifyPost_eq_specPost a hdoc
  | some b =>
    cases ht : is_musicxml_bytes b with
    | true => simp [ht]
    | false =>
      have hdoc : ∀ b2, zread a "doc.xml" = some b2 → is_musicxml_bytes b2 = false := by
        intro b2 hb2
        rw [hdx] at hb2
        injection hb2 with h
        rw [← h]
        exact ht
      simpa [ht] using classifyPost_eq_specPost a hdoc

/-- C5: the MusicXML root-element test is a total Boolean function of the
bytes (malformed XML yields false, never an error), returning true exactly
when the bytes parse as a well-formed XML document whose root tag, after
stripping a curly-brace namespace and lowercasing, is score-partwise,
score-timewise or score; in particular a namespaced score-partwise root is
accepted, and a well-formed foo root parses but is rejected. -/
theorem is_musicxml_bytes_total_and_root_test :
    (∀ b : Bytes, is_musicxml_bytes b = true ↔
        ∃ t, xmlRootTag b = some t ∧ strLower (stripNsTag t) ∈ musicxmlRoots)
    ∧ is_musicxml_bytes "<score-partwise xmlns=\"urn:example\"></score-partwise>" = true
    ∧ is_musicxml_bytes "<foo></foo>" = false
    ∧ xmlRootTag "<foo></foo>" = some "foo"
    ∧ is_musicxml_bytes "plainly not xml" = false := by
  refine ⟨?_, by decide, by decide, by decide, by decide⟩
  intro b
  unfold is_musicxml_bytes
  cases h : xmlRootTag b with
  | none => simp
  | some t => simp [List.contains, List.elem_iff]

/-- C3: for an existing input archive whose doc.xml entry passes the
MusicXML root test and a non-existing output path, `process_single_file`
writes exactly those bytes to the output and returns 0. -/
theorem docxml_passthrough_exact_bytes (e : SEnv) (a : Archive) (b : Bytes) (s : FS)
    (hf : e.fileExists = true) (ho : e.outExists = false) (hi : e.input = PInput.zip a)
    (hd : zread a "doc.xml" = some b) (hx : is_musicxml_bytes b = true) :
    process_single_file e s = (0, some b, s) := by
  have hc : classify a = Classification.directMusicXML b := by
    unfold classify
    rw [hd]
    simp [hx]
  simp [process_single_file, hf, ho, hi, hc]

theorem docxml_passthrough_exact_bytes_witness :
    process_single_file eDocXml fs0 = (0, some goodXml, fs0) :=
  docxml_passthrough_exact_bytes eDocXml archDocXml goodXml fs0 rfl rfl rfl (by decide)
    (by decide)

/-- C4 counterexample: a call with the output path existing and overwrite
false does NOT always return success — when the input path is missing, the
input-existence check at source line 182 runs before the overwrite
short-circuit at line 187 and the call returns 2. -/
theorem overwrite_skip_fails_on_missing_input :
    process_single_file eMissingOutPresent fs0 = (2, none, fs0) ∧ (2 : Nat) ≠ 0 :=
  ⟨rfl, by decide⟩

/-- C4 amended: for every call whose input path references an existing
file, if the output path exists and overwrite is false the call returns 0
and writes nothing; hence a second identical call after a successful first
one leaves the first output untouched and succeeds. -/
theorem overwrite_skip_with_existing_input (e : SEnv) (s : FS)
    (hf : e.fileExists = true) (ho : e.outExists = true) (hw : e.overwrite = false) :
    process_single_file e s = (0, none, s) := by
  unfold process_single_file
  rw [hf, ho, hw]
  rfl

theorem overwrite_skip_with_existing_input_witness :
    process_single_file eExistingOutPresent fs0 = (0, none, fs0) :=
  overwrite_skip_with_existing_input eExistingOutPresent fs0 rfl rfl rfl

/-- C7 counterexample: the failure kinds do NOT all get distinct return
codes.  A missing input (InputNotFound) and an existing non-ZIP input
(CorruptArchive) both return 2, and on the MIDI path a missing music21
library and a failing conversion (MidiConversionFailed) both return 3. -/
theorem error_codes_collide :
    ((process_single_file eMissing fs0).1 = 2 ∧ (process_single_file eBadZip fs0).1 = 2)
    ∧ ((process_single_file eMidiNoLib fs0).1 = 3
        ∧ (process_single_file eMidiFail fs0).1 = 3) :=
  ⟨⟨rfl, rfl⟩, ⟨rfl, rfl⟩⟩

/-- C7 amended: the actual return-code mapping of `process_single_file`:
a missing input and a corrupt archive both map to the same code 2, and on
a MIDI payload both a missing music21 library and a failing external
conversion map to the same code 3; an unrecognized archive maps to 4. -/
theorem process_single_file_code_mapping (e : SEnv) (s : FS) :
    (e.fileExists = false → (process_single_file e s).1 = 2)
    ∧ (e.fileExists = true → (e.outExists && !e.overwrite) = false →
        e.input = PInput.notZip → (process_single_file e s).1 = 2)
    ∧ (∀ a mb, e.fileExists = true → (e.outExists && !e.overwrite) = false →
        e.input = PInput.zip a → classify a = Classification.midiPayload mb →
        e.music21 = false → (process_single_file e s).1 = 3)
    ∧ (∀ a mb, e.fileExists = true → (e.outExists && !e.overwrite) = false →
        e.input = PInput.zip a → classify a = Classification.midiPayload mb →
        e.music21 = true → e.midiConv mb = none → (process_single_file e s).1 = 3)
    ∧ (∀ a, e.fileExists = true → (e.outExists && !e.overwrite) = false →
        e.input = PInput.zip a → classify a = Classification.unrecognized →
        (process_single_file e s).1 = 4) := by
  refine ⟨?_, ?_, ?_, ?_, ?_⟩
  · intro hf
    simp [process_single_file, hf]
  · intro hf hsc hi
    simp [process_single_file, hf, hsc, hi]
  · intro a mb hf hsc hi hc hm
    simp [process_single_file, hf, hsc, hi, hc, convert_mid_to_musicxml, hm]
  · intro a mb hf hsc hi hc hm hconv
    simp [process_single_file, hf, hsc, hi, hc, convert_mid_to_musicxml, hm, hconv]
  · intro a hf hsc hi hc
    simp [process_single_file, hf, hsc, hi, hc]

theorem process_single_file_code_mapping_witness :
    (process_single_file eMissing fs0).1 = 2
    ∧ (process_single_file eBadZip fs0).1 = 2
    ∧ (process_single_file eMidiNoLib fs0).1 = 3
    ∧ (process_single_file eMidiFail fs0).1 = 3
    ∧ (process_single_file eUnrec fs0).1 = 4 :=
  ⟨(process_single_file_code_mapping eMissing fs0).1 rfl,
   (process_single_file_code_mapping eBadZip fs0).2.1 rfl rfl rfl,
   (process_single_file_code_mapping eMidiNoLib fs0).2.2.1 archDocMid "MThd0" rfl rfl rfl
     (by decide) rfl,
   (process_single_file_code_mapping eMidiFail fs0).2.2.2.1 archDocMid "MThd0" rfl rfl rfl
     (by decide) rfl rfl,
   (process_single_file_code_mapping eUnrec fs0).2.2.2.2 [] rfl rfl rfl (by decide)⟩

theorem mainBatchAux_eq_find (envs : List SEnv) : ∀ (acc : Nat) (s : FS),
    (mainBatchAux acc envs s).1 =
      (((batchCodes envs s).reverse.find? (fun c => c != 0)).getD acc) := by
  induction envs with
  | nil => intro acc s; rfl
  | cons e rest ih =>
    intro acc s
    simp only [mainBatchAux, batchCodes, List.reverse_cons, List.find?_append]
    rw [ih]
    cases hf : (batchCodes rest (process_single_file e s).2.2).reverse.find? (fun c => c != 0) with
    | some c => simp [Option.or]
    | none =>
      by_cases h1 : (process_single_file e s).1 = 0
      · simp [Option.or, List.find?, h1]
      · have hb : ((process_single_file e s).1 != 0) = true := bne_iff_ne.mpr h1
        simp [Option.or, List.find?, hb, h1]

/-- C8 counterexample: the batch exit status is not the worst outcome of
the inputs — it depends on processing order.  The batch with outcomes 4
then 2 exits 2 while the batch with the same two outcomes in the other
order exits 4, so the status is merely the last failing code and cannot
correspond to the worst failure kind. -/
theorem batch_exit_depends_on_order :
    (mainBatch [eUnrec, eMissing] fs0).1 = 2 ∧ (mainBatch [eMissing, eUnrec] fs0).1 = 4
    ∧ (mainBatch [eUnrec, eMissing] fs0).1 ≠ (mainBatch [eMissing, eUnrec] fs0).1 :=
  ⟨rfl, rfl, by decide⟩

/-- C8 amended: the batch exit status is zero exactly when every input
succeeded; when failures occur it is the return code of the last failing
input (not the worst one). -/
theorem batch_exit_zero_iff_all_ok_else_last (envs : List SEnv) (s : FS) :
    ((mainBatch envs s).1 = 0 ↔ ∀ c ∈ batchCodes envs s, c = 0)
    ∧ (∀ c, (batchCodes envs s).reverse.find? (fun x => x != 0) = some c →
        (mainBatch envs s).1 = c) := by
  constructor
  · rw [mainBatch, mainBatchAux_eq_find]
    cases hf : (batchCodes envs s).reverse.find? (fun c => c != 0) with
    | some c =>
      have hc := List.find?_some hf
      have hcne : c ≠ 0 := by simpa using hc
      have hcm : c ∈ batchCodes envs s :=
        List.mem_reverse.mp (List.mem_of_find?_eq_some hf)
      constructor
      · intro h0
        exact absurd h0 hcne
      · intro hall
        exact absurd (hall c hcm) hcne
    | none =>
      have hall := List.find?_eq_none.mp hf
      constructor
      · intro _ c hc
        have := hall c (List.mem_reverse.mpr hc)
        simpa using this
      · intro _
        rfl
  · intro c hc
    rw [mainBatch, mainBatchAux_eq_find, hc]
    rfl

theorem batch_exit_zero_iff_all_ok_else_last_witness :
    (mainBatch [eMissing, eUnrec] fs0).1 = 4 ∧ (mainBatch ([] : List SEnv) fs0).1 = 0 :=
  ⟨(batch_exit_zero_iff_all_ok_else_last [eMissing, eUnrec] fs0).2 4 (by decide),
   (batch_exit_zero_iff_all_ok_else_last [] fs0).1.mpr (by decide)⟩

/-- General fact about the accumulation loop at source lines 273-282: the
combined element list is the concatenation, in input order, of the
per-source expansions, and the part counter is the sum of the per-source
counts; nothing is reordered or deduplicated. -/
theorem combineAux_append : ∀ (scores : List M21Obj) (acc : List Elem) (cnt : Nat),
    combineAux acc cnt scores =
      (acc ++ (scores.map expandOne).flatten, cnt + (scores.map countOne).sum) := by
  intro scores
  induction scores with
  | nil =>
    intro acc cnt
    simp [combineAux]
  | cons mo rest ih =>
    intro acc cnt
    cases mo with
    | scoreOf ps =>
      by_cases hp : ps.length > 0
      · simp [combineAux, hp, ih, expandOne, countOne, List.append_assoc, Nat.add_assoc]
      · simp [combineAux, hp, ih, expandOne, countOne, List.append_assoc, Nat.add_assoc]
    | plain i =>
      simp [combineAux, ih, expandOne, countOne, List.append_assoc, Nat.add_assoc]

theorem resolveAll_all_none (m : MEnv) : ∀ (inputs : List PInput) (s : FS),
    (∀ f ∈ inputs, ∀ s2, (parse_playscore_to_score m f s2).1 = Except.ok none) →
    ∃ s1, resolveAll m inputs s = (Except.ok [], s1) := by
  intro inputs
  induction inputs with
  | nil =>
    intro s _
    exact ⟨s, rfl⟩
  | cons f rest ih =>
    intro s hall
    have hf := hall f (List.mem_cons_self f rest) s
    obtain ⟨s1, hr⟩ :=
      ih (parse_playscore_to_score m f s).2
        (fun g hg s2 => hall g (List.mem_cons_of_mem f hg) s2)
    refine ⟨s1, ?_⟩
    simp [resolveAll, hf, hr]

/-- C6: with music21 available and no overwrite short-circuit, a merge in
which every input resolves to no score returns the distinct code 4
(NoParsableScores) and writes nothing; and when resolution yields at least
one score but serialization of the combined score raises, the merge
returns the distinct code 5 (WriteFailed) and writes nothing. -/
theorem merge_no_parsable_and_write_failed_codes (m : MEnv) (inputs : List PInput) (s : FS)
    (hm : m.music21 = true) (hsc : (m.outExists && !m.overwrite) = false) :
    ((∀ f ∈ inputs, ∀ s2, (parse_playscore_to_score m f s2).1 = Except.ok none) →
       (merge_files m inputs s).1 = Except.ok 4 ∧ (merge_files m inputs s).2.1 = none)
    ∧ (∀ scores, (resolveAll m inputs s).1 = Except.ok scores → scores ≠ [] →
        m.serialize (combineParts scores).1 = none →
        (merge_files m inputs s).1 = Except.ok 5 ∧ (merge_files m inputs s).2.1 = none) := by
  constructor
  · intro hall
    obtain ⟨s1, hr⟩ := resolveAll_all_none m inputs s hall
    constructor <;> simp [merge_files, hsc, hm, hr]
  · intro scores hres hne hser
    have hemp : scores.isEmpty = false := by
      cases scores with
      | nil => exact absurd rfl hne
      | cons x xs => rfl
    constructor <;> simp [merge_files, hsc, hm, hres, hemp, hser]

theorem merge_failure_codes_witness :
    (merge_files mAllFail [PInput.notZip] fs0).1 = Except.ok 4
    ∧ (merge_files mAllFail [PInput.notZip] fs0).2.1 = none :=
  (merge_no_parsable_and_write_failed_codes mAllFail [PInput.notZip] fs0 rfl rfl).1
    (by
      intro f hf s2
      rw [List.mem_singleton] at hf
      subst hf
      rfl)

/-- C10: when the merge output path exists and overwrite is false,
`merge_files` returns success immediately with nothing written and the
filesystem untouched, for every environment (music21 present or not) and
every input list (empty, unparsable, anything) — the short-circuit at
source line 249 runs before the music21 import and before any input is
opened. -/
theorem merge_overwrite_short_circuit (m : MEnv) (inputs : List PInput) (s : FS)
    (ho : m.outExists = true) (hw : m.overwrite = false) :
    merge_files m inputs s = (Except.ok 0, none, s) := by
  simp [merge_files, ho, hw]

theorem merge_overwrite_short_circuit_witness :
    merge_files mOutPresentNoLib [inB] fs0 = (Except.ok 0, none, fs0)
    ∧ merge_files mOutPresentNoLib [] fs0 = (Except.ok 0, none, fs0) :=
  ⟨merge_overwrite_short_circuit mOutPresentNoLib [inB] fs0 rfl rfl,
   merge_overwrite_short_circuit mOutPresentNoLib [] fs0 rfl rfl⟩

/-- C2 (evaluation at the failing input): merging input A, whose doc.xml
parses to a two-part score, together with input B, whose doc.mid the
external parser rejects by raising, aborts the whole merge with the
propagated exception and writes nothing — B is not skipped, contradicting
the claim (and the docstring of parse_playscore_to_score, which promises
a score or None): only BadZipFile is caught at source line 147, so the
exception from converter.parse at line 123 escapes merge_files. -/
theorem merge_aborts_when_external_parse_raises :
    (merge_files mParseRaises [inA, inB] fs0).1 = Except.error ()
    ∧ (merge_files mParseRaises [inA, inB] fs0).2.1 = none :=
  ⟨rfl, rfl⟩

theorem fsStep (s : FS) (h : s.wf) :
    unlink (mkTemp s).1 (mkTemp s).2 = ⟨s.temps, s.next + 1⟩ := by
  have hnot : s.next ∉ s.temps := fun hmem => absurd (h s.next hmem) (lt_irrefl s.next)
  show FS.mk ((s.temps ++ [s.next]).erase s.next) (s.next + 1) = FS.mk s.temps (s.next + 1)
  rw [List.erase_append_right _ hnot, List.erase_cons_head]
  simp

theorem wf_succ (s : FS) (h : s.wf) : (FS.mk s.temps (s.next + 1)).wf :=
  fun t ht => Nat.lt_succ_of_lt (h t ht)

theorem convert_fs (m21 : Bool) (conv : Bytes → Option Bytes) (mb : Bytes) (s : FS)
    (h : s.wf) :
    ((convert_mid_to_musicxml m21 conv mb s).2.2.temps = s.temps)
    ∧ (convert_mid_to_musicxml m21 conv mb s).2.2.wf := by
  cases hm : m21 with
  | false => exact ⟨rfl, h⟩
  | true =>
    cases hc : conv mb with
    | some ob =>
      have he : (convert_mid_to_musicxml true conv mb s).2.2 = ⟨s.temps, s.next + 1⟩ := by
        simp [convert_mid_to_musicxml, hc, fsStep s h]
      rw [he]
      exact ⟨rfl, wf_succ s h⟩
    | none =>
      have he : (convert_mid_to_musicxml true conv mb s).2.2 = ⟨s.temps, s.next + 1⟩ := by
        simp [convert_mid_to_musicxml, hc, fsStep s h]
      rw [he]
      exact ⟨rfl, wf_succ s h⟩

theorem process_fs (e : SEnv) (s : FS) (h : s.wf) :
    ((process_single_file e s).2.2.temps = s.temps) ∧ (process_single_file e s).2.2.wf := by
  cases hf : e.fileExists with
  | false =>
    have he : (process_single_file e s).2.2 = s := by simp [process_single_file, hf]
    rw [he]
    exact ⟨rfl, h⟩
  | true =>
    cases hsc : e.outExists && !e.overwrite with
    | true =>
      have he : (process_single_file e s).2.2 = s := by simp [process_single_file, hf, hsc]
      rw [he]
      exact ⟨rfl, h⟩
    | false =>
      cases hi : e.input with
      | notZip =>
        have he : (process_single_file e s).2.2 = s := by
          simp [process_single_file, hf, hsc, hi]
        rw [he]
        exact ⟨rfl, h⟩
      | zip a =>
        cases hc : classify a with
        | directMusicXML b =>
          have he : (process_single_file e s).2.2 = s := by
            simp [process_single_file, hf, hsc, hi, hc]
          rw [he]
          exact ⟨rfl, h⟩
        | midiPayload mb =>
          have hcv := convert_fs e.music21 e.midiConv mb s h
          have he : (process_single_file e s).2.2 =
              (convert_mid_to_musicxml e.music21 e.midiConv mb s).2.2 := by
            cases hr : (convert_mid_to_musicxml e.music21 e.midiConv mb s).1 <;>
              simp [process_single_file, hf, hsc, hi, hc, hr]
          rw [he]
          exact ⟨hcv.1, hcv.2⟩
        | unrecognized =>
          have he : (process_single_file e s).2.2 = s := by
            simp [process_single_file, hf, hsc, hi, hc]
          rw [he]
          exact ⟨rfl, h⟩

theorem parse_fs (m : MEnv) (f : PInput) (s : FS) (h : s.wf) :
    ((parse_playscore_to_score m f s).2.temps = s.temps)
    ∧ (parse_playscore_to_score m f s).2.wf := by
  cases hm : m.music21 with
  | false =>
    have he : (parse_playscore_to_score m f s).2 = s := by
      simp [parse_playscore_to_score, hm]
    rw [he]
    exact ⟨rfl, h⟩
  | true =>
    cases f with
    | notZip =>
      have he : (parse_playscore_to_score m (PInput.notZip) s).2 = s := by
        simp [parse_playscore_to_score, hm]
      rw [he]
      exact ⟨rfl, h⟩
    | zip a =>
      cases hc : classify a with
      | directMusicXML b =>
        have he : (parse_playscore_to_score m (PInput.zip a) s).2 = ⟨s.temps, s.next + 1⟩ := by
          simp [parse_playscore_to_score, hm, hc, fsStep s h]
        rw [he]
        exact ⟨rfl, wf_succ s h⟩
      | midiPayload mb =>
        have he : (parse_playscore_to_score m (PInput.zip a) s).2 = ⟨s.temps, s.next + 1⟩ := by
          simp [parse_playscore_to_score, hm, hc, fsStep s h]
        rw [he]
        exact ⟨rfl, wf_succ s h⟩
      | unrecognized =>
        have he : (parse_playscore_to_score m (PInput.zip a) s).2 = s := by
          simp [parse_playscore_to_score, hm, hc]
        rw [he]
        exact ⟨rfl, h⟩

theorem resolveAll_fs (m : MEnv) : ∀ (inputs : List PInput) (s : FS), s.wf →
    ((resolveAll m inputs s).2.temps = s.temps) ∧ (resolveAll m inputs s).2.wf := by
  intro inputs
  induction inputs with
  | nil =>
    intro s h
    exact ⟨rfl, h⟩
  | cons f rest ih =>
    intro s h
    have hp := parse_fs m f s h
    have hr := ih (parse_playscore_to_score m f s).2 hp.2
    cases hpe : (parse_playscore_to_score m f s).1 with
    | error err =>
      constructor
      · simp [resolveAll, hpe]
        exact hp.1
      · simp [resolveAll, hpe]
        exact hp.2
    | ok r =>
      cases hre : (resolveAll m rest (parse_playscore_to_score m f s).2).1 with
      | error err2 =>
        constructor
        · simp [resolveAll, hpe, hre]
          exact hr.1.trans hp.1
        · simp [resolveAll, hpe, hre]
          exact hr.2
      | ok rs =>
        constructor
        · simp [resolveAll, hpe, hre]
          exact hr.1.trans hp.1
        · simp [resolveAll, hpe, hre]
          exact hr.2

theorem merge_fs (m : MEnv) (inputs : List PInput) (s : FS) (h : s.wf) :
    (merge_files m inputs s).2.2.temps = s.temps := by
  cases hsc : m.outExists && !m.overwrite with
  | true => simp [merge_files, hsc]
  | false =>
    cases hm : m.music21 with
    | false => simp [merge_files, hsc, hm]
    | true =>
      have hr := resolveAll_fs m inputs s h
      cases hre : (resolveAll m inputs s).1 with
      | error err =>
        simp [merge_files, hsc, hm, hre]
        exact hr.1
      | ok scores =>
        cases he : scores.isEmpty with
        | true =>
          simp [merge_files, hsc, hm, hre, he]
          exact hr.1
        | false =>
          cases hser : m.serialize (combineParts scores).1 with
          | some b =>
            simp [merge_files, hsc, hm, hre, he, hser]
            exact hr.1
          | none =>
            simp [merge_files, hsc, hm, hre, he, hser]
            exact hr.1

/-- C9: after any `process_single_file` or `merge_files` call — success,
failure code, or propagated exception — every temporary file created
during the call has been removed: the final filesystem ledger holds
exactly the scratch files that existed before the call. -/
theorem no_temp_files_remain (e : SEnv) (m : MEnv) (inputs : List PInput) (s : FS)
    (h : s.wf) :
    (process_single_file e s).2.2.temps = s.temps
    ∧ (merge_files m inputs s).2.2.temps = s.temps :=
  ⟨(process_fs e s h).1, merge_fs m inputs s h⟩

theorem no_temp_files_remain_witness :
    FS.wf fs0
    ∧ ((process_single_file eMidiFail fs0).2.2.temps = fs0.temps
        ∧ (merge_files mParseRaises [inA, inB] fs0).2.2.temps = fs0.temps) :=
  ⟨by decide, no_temp_files_remain eMidiFail mParseRaises [inA, inB] fs0 (by decide)⟩

end PlayScore
